import Mathlib

/-!
Shallow embedding of the kilo text editor (src/kilo.c): the row data model,
tab rendering, logical-to-rendered column conversion, the key decoder,
scrolling, cursor movement, character insertion and file load/save
serialization, with theorems checking the specification's claims.

C `int` fields are modelled as `Nat`: every value these functions store in
them in a reachable state is non-negative, and the source never relies on
overflow.  Strings are `List Char`; a row's `size`/`rsize` are the lengths
of the corresponding lists.
-/

namespace Kilo

/-- `#define KILO_TAB_STOP 8` (src/kilo.c line 80). -/
def KILO_TAB_STOP : Nat := 8

/-! Key codes from `enum editorKey` (src/kilo.c lines 94-105).  The decoder
returns a C `int` that is either a raw byte or one of these codes. -/

def BACKSPACE : Nat := 127
def ARROW_LEFT : Nat := 1000
def ARROW_RIGHT : Nat := 1001
def ARROW_UP : Nat := 1002
def ARROW_DOWN : Nat := 1003
def DEL_KEY : Nat := 1004
def HOME_KEY : Nat := 1005
def END_KEY : Nat := 1006
def PAGE_UP : Nat := 1007
def PAGE_DOWN : Nat := 1008

/-- `erow` (src/kilo.c lines 114-119): a row's raw characters and its derived
rendered characters.  `size` and `rsize` are `chars.length` and
`render.length`. -/
structure Erow where
  chars : List Char
  render : List Char
deriving Repr, DecidableEq

/-- The rendering loop of `editorUpdateRow` (src/kilo.c lines 327-335),
parameterised by the current write index `idx`.  For a tab the C code writes
one space (`idx++`) and then spaces `while (idx % KILO_TAB_STOP != 0)`: at
entry index `idx` that emits exactly `KILO_TAB_STOP - idx % KILO_TAB_STOP`
spaces, stopping at the next multiple of `KILO_TAB_STOP`.  Every other
character is copied through and advances `idx` by one. -/
def renderChars : List Char → Nat → List Char
  | [], _ => []
  | c :: cs, idx =>
    if c = '\t' then
      List.replicate (KILO_TAB_STOP - idx % KILO_TAB_STOP) ' ' ++
        renderChars cs (idx + (KILO_TAB_STOP - idx % KILO_TAB_STOP))
    else
      c :: renderChars cs (idx + 1)

/-- `editorUpdateRow` (src/kilo.c lines 318-338): rebuild a row's rendered
form from its raw characters, starting at write index 0. -/
def editorUpdateRow (chars : List Char) : Erow :=
  { chars := chars, render := renderChars chars 0 }

/-- Number of tab characters in a row's raw content — the `tabs` count of
`editorUpdateRow` (src/kilo.c lines 319-322), used to size the render
allocation `row->size + tabs*(KILO_TAB_STOP - 1) + 1`. -/
def countTabs (chars : List Char) : Nat :=
  (chars.filter (fun c => c = '\t')).length

/-- The loop of `editorRowCxToRx` (src/kilo.c lines 307-316): fold over the
first `cx` raw characters carrying the rendered column `rx`; a tab adds
`(KILO_TAB_STOP - 1) - rx % KILO_TAB_STOP` and then `rx++`, any other
character adds one. -/
def cxToRxGo : List Char → Nat → Nat → Nat
  | _, 0, rx => rx
  | [], _ + 1, rx => rx
  | c :: cs, n + 1, rx =>
    if c = '\t' then
      cxToRxGo cs n (rx + (KILO_TAB_STOP - 1) - rx % KILO_TAB_STOP + 1)
    else
      cxToRxGo cs n (rx + 1)

/-- `editorRowCxToRx` (src/kilo.c lines 307-316). -/
def editorRowCxToRx (row : Erow) (cx : Nat) : Nat :=
  cxToRxGo row.chars cx 0

/-- An `erow` whose fields are unset; stands for the `NULL` row pointer in
guarded accesses (`List.getD` only returns it where the C code would not
dereference the row, or treats a `NULL` row as length 0). -/
def nullRow : Erow := { chars := [], render := [] }

/-- `editorAppendRow` (src/kilo.c lines 340-355): grow the row array by one,
copy `s` into the new last row and render it. -/
def editorAppendRow (rows : List Erow) (s : List Char) : List Erow :=
  rows ++ [editorUpdateRow s]

/-- `editorRowInsertChar` (src/kilo.c lines 357-364): clamp the insertion
index to `[0, size]` (`if (at < 0 || at > row->size) at = row->size;` — the
negative case cannot arise for a `Nat` index), shift the characters from
that index right by one, store `c`, and re-render the row. -/
def editorRowInsertChar (row : Erow) (i : Nat) (c : Char) : Erow :=
  let j := if i > row.chars.length then row.chars.length else i
  editorUpdateRow (row.chars.take j ++ c :: row.chars.drop j)

/-- The fields of `struct editorConfig` (src/kilo.c lines 121-134) that the
editing, scrolling and movement logic touches.  `numrows` is `rows.length`. -/
structure EditorState where
  cx : Nat
  cy : Nat
  rx : Nat
  rowoff : Nat
  coloff : Nat
  screenrows : Nat
  screencols : Nat
  rows : List Erow
deriving Repr, DecidableEq

/-- `editorInsertChar` (src/kilo.c lines 368-374): when the cursor sits on
the virtual line one past the last row (`E.cy == E.numrows`) first append an
empty row, then insert `c` into row `E.cy` at column `E.cx` and advance
`E.cx` by one. -/
def editorInsertChar (E : EditorState) (c : Char) : EditorState :=
  let rows := if E.cy = E.rows.length then editorAppendRow E.rows [] else E.rows
  let rows := rows.set E.cy (editorRowInsertChar (rows.getD E.cy nullRow) E.cx c)
  { E with rows := rows, cx := E.cx + 1 }

/-- `editorScroll` (src/kilo.c lines 462-489): recompute `rx` (0 on the
virtual line past the end), then pull `rowoff` up to `cy` or down to
`cy - screenrows + 1`, and likewise `coloff` for `rx` — each second test
reads the offset the first may have just written, as in the source. -/
def editorScroll (E : EditorState) : EditorState :=
  let rx := if E.cy < E.rows.length then editorRowCxToRx (E.rows.getD E.cy nullRow) E.cx else 0
  let rowoff := if E.cy < E.rowoff then E.cy else E.rowoff
  let rowoff := if E.cy ≥ rowoff + E.screenrows then E.cy - E.screenrows + 1 else rowoff
  let coloff := if rx < E.coloff then rx else E.coloff
  let coloff := if rx ≥ coloff + E.screencols then rx - E.screencols + 1 else coloff
  { E with rx := rx, rowoff := rowoff, coloff := coloff }

/-- `editorMoveCursor` (src/kilo.c lines 613-657).  `row` is `NULL` iff
`E.cy >= E.numrows`; a `NULL` row's length counts as 0 in the final clamp.
Left at column 0 moves to the end of the previous row; right at the end of a
real row moves to column 0 of the next line; up/down only change `cy`; the
final snap sets `cx` to the destination row's length when it exceeds it. -/
def editorMoveCursor (E : EditorState) (key : Nat) : EditorState :=
  let hasRow := E.cy < E.rows.length
  let curSize := (E.rows.getD E.cy nullRow).chars.length
  let E1 :=
    if key = ARROW_LEFT ∨ key = 'h'.toNat then
      if E.cx ≠ 0 then { E with cx := E.cx - 1 }
      else if E.cy > 0 then
        { E with cy := E.cy - 1, cx := (E.rows.getD (E.cy - 1) nullRow).chars.length }
      else E
    else if key = ARROW_RIGHT ∨ key = 'l'.toNat then
      if hasRow ∧ E.cx < curSize then { E with cx := E.cx + 1 }
      else if hasRow ∧ E.cx = curSize then { E with cy := E.cy + 1, cx := 0 }
      else E
    else if key = ARROW_UP ∨ key = 'k'.toNat then
      if E.cy ≠ 0 then { E with cy := E.cy - 1 } else E
    else if key = ARROW_DOWN ∨ key = 'j'.toNat then
      if E.cy < E.rows.length then { E with cy := E.cy + 1 } else E
    else E
  let rowlen := if E1.cy < E1.rows.length then (E1.rows.getD E1.cy nullRow).chars.length else 0
  if E1.cx > rowlen then { E1 with cx := rowlen } else E1

/-- `editorReadKey` (src/kilo.c lines 217-265).  The first byte `c` has been
read (the C code blocks until one arrives); `rest` is the bytes the
follow-up reads can still deliver, an exhausted list standing for a read
that returns without a byte (`VTIME` timeout).  On `0x1b` the decoder reads
up to two more bytes (each failed read yields a bare escape), dispatches
`ESC [ A..D/H/F`, `ESC [ digit ~` (reading a third byte) and `ESC O H/F`,
and falls through to a bare escape for everything else; a non-escape first
byte is returned as-is. -/
def editorReadKey (c : Nat) (rest : List Nat) : Nat :=
  if c = 27 then
    match rest with
    | [] => 27
    | [_] => 27
    | s0 :: s1 :: rest2 =>
      if s0 = '['.toNat then
        if '0'.toNat ≤ s1 ∧ s1 ≤ '9'.toNat then
          match rest2 with
          | [] => 27
          | s2 :: _ =>
            if s2 = '~'.toNat then
              if s1 = '1'.toNat then HOME_KEY
              else if s1 = '3'.toNat then DEL_KEY
              else if s1 = '4'.toNat then END_KEY
              else if s1 = '5'.toNat then PAGE_UP
              else if s1 = '6'.toNat then PAGE_DOWN
              else if s1 = '7'.toNat then HOME_KEY
              else if s1 = '8'.toNat then END_KEY
              else 27
            else 27
        else
          if s1 = 'A'.toNat then ARROW_UP
          else if s1 = 'B'.toNat then ARROW_DOWN
          else if s1 = 'C'.toNat then ARROW_RIGHT
          else if s1 = 'D'.toNat then ARROW_LEFT
          else if s1 = 'H'.toNat then HOME_KEY
          else if s1 = 'F'.toNat then END_KEY
          else 27
      else if s0 = 'O'.toNat then
        if s1 = 'H'.toNat then HOME_KEY
        else if s1 = 'F'.toNat then END_KEY
        else 27
      else 27
  else c

/-! File I/O (src/kilo.c lines 376-434). -/

/-- The `getline` loop of `editorOpen` (src/kilo.c line 413) splits the
input text into chunks each ending with `'\n'`, plus a final unterminated
chunk when the text does not end with a newline; an empty text yields no
lines. -/
def getLines : List Char → List (List Char)
  | [] => []
  | c :: cs =>
    if c = '\n' then ['\n'] :: getLines cs
    else
      match getLines cs with
      | [] => [[c]]
      | l :: ls => (c :: l) :: ls

/-- The stripping loop of `editorOpen` (src/kilo.c lines 414-416): drop
trailing `'\n'` and `'\r'` characters from a line before it is appended. -/
def stripNlCr (l : List Char) : List Char :=
  (l.reverse.dropWhile (fun c => c = '\n' || c = '\r')).reverse

/-- `editorOpen` (src/kilo.c lines 402-421), restricted to its buffer
effect: one `editorAppendRow` per `getline` result, each with its trailing
newline/carriage-return run stripped. -/
def editorOpen (text : List Char) : List Erow :=
  (getLines text).map (fun l => editorUpdateRow (stripNlCr l))

/-- `editorRowsToString` (src/kilo.c lines 382-400): each row's raw
characters followed by one `'\n'`, concatenated in row order. -/
def editorRowsToString (rows : List Erow) : List Char :=
  (rows.map (fun r => r.chars ++ ['\n'])).flatten

/-- The text obtained by terminating each of a list of lines with a single
newline, in order: the shape of a file whose every line is
newline-terminated.  Used to state the load/save round trip. -/
def joinLines (L : List (List Char)) : List Char :=
  (L.map (fun l => l ++ ['\n'])).flatten

/-! ### Helper lemmas about the renderer -/

theorem countTabs_cons_tab (cs : List Char) :
    countTabs ('\t' :: cs) = countTabs cs + 1 := by
  simp [countTabs, List.filter_cons]

theorem countTabs_cons_of_ne (c : Char) (cs : List Char) (hc : c ≠ '\t') :
    countTabs (c :: cs) = countTabs cs := by
  simp [countTabs, List.filter_cons, hc]

theorem renderChars_cons_tab (cs : List Char) (idx : Nat) :
    renderChars ('\t' :: cs) idx =
      List.replicate (8 - idx % 8) ' ' ++ renderChars cs (idx + (8 - idx % 8)) := by
  simp [renderChars, KILO_TAB_STOP]

theorem renderChars_cons_of_ne (c : Char) (cs : List Char) (idx : Nat) (hc : c ≠ '\t') :
    renderChars (c :: cs) idx = c :: renderChars cs (idx + 1) := by
  simp [renderChars, hc]

theorem renderChars_length_lower (cs : List Char) :
    ∀ idx, cs.length ≤ (renderChars cs idx).length := by
  induction cs with
  | nil => intro idx; simp [renderChars]
  | cons c cs ih =>
    intro idx
    by_cases hc : c = '\t'
    · subst hc
      rw [renderChars_cons_tab]
      simp only [List.length_append, List.length_replicate, List.length_cons]
      have h := ih (idx + (8 - idx % 8))
      omega
    · rw [renderChars_cons_of_ne c cs idx hc]
      simp only [List.length_cons]
      have h := ih (idx + 1)
      omega

theorem renderChars_length_upper (cs : List Char) :
    ∀ idx, (renderChars cs idx).length ≤ cs.length + (KILO_TAB_STOP - 1) * countTabs cs := by
  induction cs with
  | nil => intro idx; simp [renderChars, countTabs]
  | cons c cs ih =>
    intro idx
    by_cases hc : c = '\t'
    · subst hc
      rw [countTabs_cons_tab, renderChars_cons_tab]
      simp only [List.length_append, List.length_replicate, List.length_cons, KILO_TAB_STOP]
      have h := ih (idx + (8 - idx % 8))
      simp only [KILO_TAB_STOP] at h
      omega
    · rw [countTabs_cons_of_ne c cs hc, renderChars_cons_of_ne c cs idx hc]
      simp only [List.length_cons]
      have h := ih (idx + 1)
      omega

/-! ### Claim theorems -/

/-- C2: tab expansion rule of the row renderer: every character other than
tab copies through 1:1; a tab met at rendered column `r` expands to exactly
`8 - r % 8` spaces, after which the rendered column is the smallest multiple
of the tab width 8 strictly greater than `r`; in particular a tab at
rendered column 0 yields 8 spaces and a tab at rendered column 5 yields 3
spaces. -/
theorem renderChars_tab_expansion :
    (∀ cs r, renderChars ('\t' :: cs) r =
        List.replicate (8 - r % 8) ' ' ++ renderChars cs (r + (8 - r % 8))) ∧
    (∀ c cs r, c ≠ '\t' → renderChars (c :: cs) r = c :: renderChars cs (r + 1)) ∧
    (∀ r, r < r + (8 - r % 8) ∧ (r + (8 - r % 8)) % 8 = 0 ∧
        ∀ m, m % 8 = 0 → r < m → r + (8 - r % 8) ≤ m) ∧
    renderChars ['\t'] 0 = List.replicate 8 ' ' ∧
    renderChars ['\t'] 5 = List.replicate 3 ' ' := by
  refine ⟨?_, ?_, ?_, by decide, by decide⟩
  · intro cs r
    simp [renderChars, KILO_TAB_STOP]
  · intro c cs r hc
    simp [renderChars, hc]
  · intro r
    refine ⟨by omega, by omega, ?_⟩
    intro m h1 h2
    omega

/-- C9: render-buffer bound: the rendered length of every row is at least
the raw length and at most raw length plus `(KILO_TAB_STOP - 1) = 7` per tab
character, so the write index of `editorUpdateRow` stays within the buffer
it allocates as `size + tabs*(KILO_TAB_STOP - 1) + 1` bytes and the final
null terminator is in bounds. -/
theorem editorUpdateRow_render_length_bounds :
    ∀ chars : List Char,
      chars.length ≤ (editorUpdateRow chars).render.length ∧
      (editorUpdateRow chars).render.length ≤
        chars.length + (KILO_TAB_STOP - 1) * countTabs chars := by
  intro chars
  exact ⟨renderChars_length_lower chars 0, renderChars_length_upper chars 0⟩

theorem cxToRxGo_cons_tab (cs : List Char) (n idx : Nat) :
    cxToRxGo ('\t' :: cs) (n + 1) idx = cxToRxGo cs n (idx + (8 - idx % 8)) := by
  have h : idx + (KILO_TAB_STOP - 1) - idx % KILO_TAB_STOP + 1 = idx + (8 - idx % 8) := by
    simp only [KILO_TAB_STOP]
    omega
  simp [cxToRxGo, h]

theorem cxToRxGo_cons_of_ne (c : Char) (cs : List Char) (n idx : Nat) (hc : c ≠ '\t') :
    cxToRxGo (c :: cs) (n + 1) idx = cxToRxGo cs n (idx + 1) := by
  simp [cxToRxGo, hc]

theorem cxToRxGo_eq_renderChars_length (cs : List Char) :
    ∀ cx idx, cx ≤ cs.length →
      cxToRxGo cs cx idx = idx + (renderChars (cs.take cx) idx).length := by
  induction cs with
  | nil =>
    intro cx idx hcx
    have h0 : cx = 0 := Nat.le_zero.mp (by simpa using hcx)
    subst h0
    simp [cxToRxGo, renderChars]
  | cons c cs ih =>
    intro cx idx hcx
    match cx with
    | 0 => simp [cxToRxGo, renderChars]
    | n + 1 =>
      have hn : n ≤ cs.length := by simpa using hcx
      by_cases hc : c = '\t'
      · subst hc
        rw [cxToRxGo_cons_tab, List.take_succ_cons, renderChars_cons_tab, ih n _ hn]
        simp only [List.length_append, List.length_replicate]
        omega
      · rw [cxToRxGo_cons_of_ne c cs n idx hc, List.take_succ_cons,
          renderChars_cons_of_ne c _ idx hc, ih n _ hn]
        simp only [List.length_cons]
        omega

/-- C6: the incremental and the whole-row tab algorithms agree: for every
row and every logical column `cx` within the raw length,
`editorRowCxToRx` returns the rendered length of `editorUpdateRow` applied
to the first `cx` raw characters, and at `cx` = raw length it returns the
row's own rendered length. -/
theorem editorRowCxToRx_agrees_with_render (chars : List Char) (cx : Nat)
    (hcx : cx ≤ chars.length) :
    editorRowCxToRx (editorUpdateRow chars) cx =
      (editorUpdateRow (chars.take cx)).render.length ∧
    editorRowCxToRx (editorUpdateRow chars) chars.length =
      (editorUpdateRow chars).render.length := by
  constructor
  · show cxToRxGo chars cx 0 = (renderChars (chars.take cx) 0).length
    rw [cxToRxGo_eq_renderChars_length chars cx 0 hcx]
    omega
  · show cxToRxGo chars chars.length 0 = (renderChars chars 0).length
    rw [cxToRxGo_eq_renderChars_length chars chars.length 0 le_rfl]
    simp

/-- Witness for C6 at the concrete row "a⟨tab⟩" and column 1. -/
theorem editorRowCxToRx_agrees_with_render_witness :
    editorRowCxToRx (editorUpdateRow ['a', '\t']) 1 =
      (editorUpdateRow (['a', '\t'].take 1)).render.length ∧
    editorRowCxToRx (editorUpdateRow ['a', '\t']) (['a', '\t'] : List Char).length =
      (editorUpdateRow ['a', '\t']).render.length :=
  editorRowCxToRx_agrees_with_render ['a', '\t'] 1 (by decide)

/-- C4: scroll visibility invariant: for every state whose screen has at
least one row and one column, after `editorScroll` the cursor row lies in
`[rowoff, rowoff + screenrows)` and the cursor's rendered column lies in
`[coloff, coloff + screencols)`. -/
theorem editorScroll_cursor_visible (E : EditorState)
    (hrow : 1 ≤ E.screenrows) (hcol : 1 ≤ E.screencols) :
    (editorScroll E).rowoff ≤ (editorScroll E).cy ∧
    (editorScroll E).cy < (editorScroll E).rowoff + (editorScroll E).screenrows ∧
    (editorScroll E).coloff ≤ (editorScroll E).rx ∧
    (editorScroll E).rx < (editorScroll E).coloff + (editorScroll E).screencols := by
  simp only [editorScroll]
  split_ifs <;> simp_all <;> omega

/-- A concrete state for the C4 witness: cursor at row 5, old offsets 0 and
7, a 3-row by 4-column screen and an empty buffer. -/
def scrollDemoState : EditorState :=
  { cx := 0, cy := 5, rx := 0, rowoff := 0, coloff := 7,
    screenrows := 3, screencols := 4, rows := [] }

/-- Witness for C4 at `scrollDemoState`. -/
theorem editorScroll_cursor_visible_witness :
    (editorScroll scrollDemoState).rowoff ≤ (editorScroll scrollDemoState).cy ∧
    (editorScroll scrollDemoState).cy <
      (editorScroll scrollDemoState).rowoff + (editorScroll scrollDemoState).screenrows ∧
    (editorScroll scrollDemoState).coloff ≤ (editorScroll scrollDemoState).rx ∧
    (editorScroll scrollDemoState).rx <
      (editorScroll scrollDemoState).coloff + (editorScroll scrollDemoState).screencols :=
  editorScroll_cursor_visible scrollDemoState (by decide) (by decide)

theorem editorMoveCursor_rows_eq (E : EditorState) (key : Nat) :
    (editorMoveCursor E key).rows = E.rows := by
  simp only [editorMoveCursor]
  split_ifs <;> rfl

/-- C5: cursor column clamp invariant: from any state whose cursor row is in
`[0, numrows]` and whose logical column is within the current row's raw
length (0 on the virtual line past the end, whose length counts as 0),
after any arrow-key `editorMoveCursor` the cursor row is again in
`[0, numrows]`, the logical column is within the destination row's raw
length, and on the virtual last line it is 0. -/
theorem editorMoveCursor_column_clamped (E : EditorState) (key : Nat)
    (hkey : key = ARROW_LEFT ∨ key = ARROW_RIGHT ∨ key = ARROW_UP ∨ key = ARROW_DOWN)
    (hcy : E.cy ≤ E.rows.length)
    (hcx : E.cx ≤ (E.rows.getD E.cy nullRow).chars.length) :
    (editorMoveCursor E key).cy ≤ (editorMoveCursor E key).rows.length ∧
    (editorMoveCursor E key).cx ≤
      ((editorMoveCursor E key).rows.getD (editorMoveCursor E key).cy nullRow).chars.length ∧
    ((editorMoveCursor E key).cy = (editorMoveCursor E key).rows.length →
      (editorMoveCursor E key).cx = 0) := by
  clear hkey hcx
  simp only [editorMoveCursor]
  split_ifs <;> simp_all <;> omega

/-- A concrete state for the C5 witness and the C7 counterexample: two rows
"⟨tab⟩a" and "aa", cursor on the second row at logical column 1. -/
def vertMoveDemoState : EditorState :=
  { cx := 1, cy := 1, rx := 0, rowoff := 0, coloff := 0, screenrows := 24, screencols := 80,
    rows := [editorUpdateRow ['\t', 'a'], editorUpdateRow ['a', 'a']] }

/-- Witness for C5 at `vertMoveDemoState` with an ArrowLeft move. -/
theorem editorMoveCursor_column_clamped_witness :
    (editorMoveCursor vertMoveDemoState ARROW_LEFT).cy ≤
      (editorMoveCursor vertMoveDemoState ARROW_LEFT).rows.length ∧
    (editorMoveCursor vertMoveDemoState ARROW_LEFT).cx ≤
      ((editorMoveCursor vertMoveDemoState ARROW_LEFT).rows.getD
        (editorMoveCursor vertMoveDemoState ARROW_LEFT).cy nullRow).chars.length ∧
    ((editorMoveCursor vertMoveDemoState ARROW_LEFT).cy =
        (editorMoveCursor vertMoveDemoState ARROW_LEFT).rows.length →
      (editorMoveCursor vertMoveDemoState ARROW_LEFT).cx = 0) :=
  editorMoveCursor_column_clamped vertMoveDemoState ARROW_LEFT (Or.inl rfl)
    (by decide) (by decide)

/-- C7 counterexample: at `vertMoveDemoState` the cursor's rendered column
is 1 and the destination row's rendered length is 9, so rendered column 1
exists on the destination row; yet after ArrowUp the cursor's rendered
column is 8, not 1 — the code carries the logical column across the move,
not the rendered column. -/
theorem editorMoveCursor_up_rx_counterexample :
    editorRowCxToRx (vertMoveDemoState.rows.getD vertMoveDemoState.cy nullRow)
        vertMoveDemoState.cx = 1 ∧
    (editorMoveCursor vertMoveDemoState ARROW_UP).cy = 0 ∧
    (editorMoveCursor vertMoveDemoState ARROW_UP).cx = 1 ∧
    ((editorMoveCursor vertMoveDemoState ARROW_UP).rows.getD 0 nullRow).render.length = 9 ∧
    editorRowCxToRx ((editorMoveCursor vertMoveDemoState ARROW_UP).rows.getD 0 nullRow)
      (editorMoveCursor vertMoveDemoState ARROW_UP).cx = 8 := by
  decide

/-- C7 amended: an ArrowUp or ArrowDown move changes only the row index (up
when possible, down while not past the last line) and preserves the
cursor's LOGICAL column where possible — whenever the destination row's raw
length can contain it — clamping it to the destination row's raw length
otherwise (the virtual line past the end counting as length 0). -/
theorem editorMoveCursor_vertical_logical_column (E : EditorState) (key : Nat)
    (hkey : key = ARROW_UP ∨ key = ARROW_DOWN) :
    (editorMoveCursor E key).cy =
      (if key = ARROW_UP then (if E.cy ≠ 0 then E.cy - 1 else E.cy)
       else (if E.cy < E.rows.length then E.cy + 1 else E.cy)) ∧
    (editorMoveCursor E key).cx =
      min E.cx (if (editorMoveCursor E key).cy < E.rows.length then
        (E.rows.getD (editorMoveCursor E key).cy nullRow).chars.length else 0) := by
  rcases hkey with hk | hk <;> subst hk
  · have hn1 : ¬(ARROW_UP = ARROW_LEFT ∨ ARROW_UP = 'h'.toNat) := by decide
    have hn2 : ¬(ARROW_UP = ARROW_RIGHT ∨ ARROW_UP = 'l'.toNat) := by decide
    have hp3 : (ARROW_UP = ARROW_UP ∨ ARROW_UP = 'k'.toNat) := Or.inl rfl
    simp only [editorMoveCursor, if_neg hn1, if_neg hn2, if_pos hp3, if_pos rfl]
    split_ifs <;> simp_all <;> omega
  · have hn1 : ¬(ARROW_DOWN = ARROW_LEFT ∨ ARROW_DOWN = 'h'.toNat) := by decide
    have hn2 : ¬(ARROW_DOWN = ARROW_RIGHT ∨ ARROW_DOWN = 'l'.toNat) := by decide
    have hn3 : ¬(ARROW_DOWN = ARROW_UP ∨ ARROW_DOWN = 'k'.toNat) := by decide
    have hp4 : (ARROW_DOWN = ARROW_DOWN ∨ ARROW_DOWN = 'j'.toNat) := Or.inl rfl
    have hne : ¬((ARROW_DOWN : Nat) = ARROW_UP) := by decide
    simp only [editorMoveCursor, if_neg hn1, if_neg hn2, if_neg hn3, if_pos hp4, if_neg hne]
    split_ifs <;> simp_all <;> omega

/-- Witness for the amended C7 at `vertMoveDemoState` with ArrowUp. -/
theorem editorMoveCursor_vertical_logical_column_witness :
    (editorMoveCursor vertMoveDemoState ARROW_UP).cy =
      (if (ARROW_UP : Nat) = ARROW_UP then
        (if vertMoveDemoState.cy ≠ 0 then vertMoveDemoState.cy - 1 else vertMoveDemoState.cy)
       else (if vertMoveDemoState.cy < vertMoveDemoState.rows.length then
         vertMoveDemoState.cy + 1 else vertMoveDemoState.cy)) ∧
    (editorMoveCursor vertMoveDemoState ARROW_UP).cx =
      min vertMoveDemoState.cx
        (if (editorMoveCursor vertMoveDemoState ARROW_UP).cy < vertMoveDemoState.rows.length then
          (vertMoveDemoState.rows.getD (editorMoveCursor vertMoveDemoState ARROW_UP).cy
            nullRow).chars.length
         else 0) :=
  editorMoveCursor_vertical_logical_column vertMoveDemoState ARROW_UP (Or.inl rfl)

set_option maxHeartbeats 4000000 in
/-- `editorReadKey` on an escape byte followed by exactly two available
bytes, unfolded: the third read (only attempted in the digit branch) times
out, yielding a bare escape there. -/
theorem editorReadKey_esc_two (s0 s1 : Nat) :
    editorReadKey 27 [s0, s1] =
      (if s0 = '['.toNat then
          if '0'.toNat ≤ s1 ∧ s1 ≤ '9'.toNat then (27 : Nat)
          else
            if s1 = 'A'.toNat then ARROW_UP
            else if s1 = 'B'.toNat then ARROW_DOWN
            else if s1 = 'C'.toNat then ARROW_RIGHT
            else if s1 = 'D'.toNat then ARROW_LEFT
            else if s1 = 'H'.toNat then HOME_KEY
            else if s1 = 'F'.toNat then END_KEY
            else 27
        else if s0 = 'O'.toNat then
          if s1 = 'H'.toNat then HOME_KEY
          else if s1 = 'F'.toNat then END_KEY
          else 27
        else 27) := rfl

set_option maxHeartbeats 4000000 in
/-- `editorReadKey` on an escape byte followed by at least three available
bytes, unfolded. -/
theorem editorReadKey_esc_more (s0 s1 s2 : Nat) (r : List Nat) :
    editorReadKey 27 (s0 :: s1 :: s2 :: r) =
      (if s0 = '['.toNat then
          if '0'.toNat ≤ s1 ∧ s1 ≤ '9'.toNat then
            if s2 = '~'.toNat then
              if s1 = '1'.toNat then HOME_KEY
              else if s1 = '3'.toNat then DEL_KEY
              else if s1 = '4'.toNat then END_KEY
              else if s1 = '5'.toNat then PAGE_UP
              else if s1 = '6'.toNat then PAGE_DOWN
              else if s1 = '7'.toNat then HOME_KEY
              else if s1 = '8'.toNat then END_KEY
              else (27 : Nat)
            else 27
          else
            if s1 = 'A'.toNat then ARROW_UP
            else if s1 = 'B'.toNat then ARROW_DOWN
            else if s1 = 'C'.toNat then ARROW_RIGHT
            else if s1 = 'D'.toNat then ARROW_LEFT
            else if s1 = 'H'.toNat then HOME_KEY
            else if s1 = 'F'.toNat then END_KEY
            else 27
        else if s0 = 'O'.toNat then
          if s1 = 'H'.toNat then HOME_KEY
          else if s1 = 'F'.toNat then END_KEY
          else 27
        else 27) := rfl

set_option maxHeartbeats 4000000 in
/-- C3: key decoder dispatch: `ESC [ A/B/C/D` decode to the four arrow
keys; `ESC [ <digit> ~` decodes digit 1 or 7 to Home, 3 to Delete, 4 or 8
to End, 5 to PageUp and 6 to PageDown; a lone escape whose follow-up reads
time out (no bytes available, also after just one byte) decodes to Escape;
every escape-initiated sequence decodes either to one of the named keys or
to a bare Escape, and any escape sequence that begins with none of the
recognized patterns — `ESC [` followed by one of A/B/C/D/H/F, `ESC O`
followed by H/F, or `ESC [ <digit> ~` with digit among 1,3,4,5,6,7,8 —
decodes to a bare Escape (unrecognized sequences collapse to Escape); the
single byte 127 is reported as Backspace regardless of what follows;
Backspace is distinct from Delete, and Delete arises exactly from the
sequences starting `ESC [ 3 ~`. -/
theorem editorReadKey_decode :
    editorReadKey 27 ['['.toNat, 'A'.toNat] = ARROW_UP ∧
    editorReadKey 27 ['['.toNat, 'B'.toNat] = ARROW_DOWN ∧
    editorReadKey 27 ['['.toNat, 'C'.toNat] = ARROW_RIGHT ∧
    editorReadKey 27 ['['.toNat, 'D'.toNat] = ARROW_LEFT ∧
    editorReadKey 27 ['['.toNat, '1'.toNat, '~'.toNat] = HOME_KEY ∧
    editorReadKey 27 ['['.toNat, '7'.toNat, '~'.toNat] = HOME_KEY ∧
    editorReadKey 27 ['['.toNat, '3'.toNat, '~'.toNat] = DEL_KEY ∧
    editorReadKey 27 ['['.toNat, '4'.toNat, '~'.toNat] = END_KEY ∧
    editorReadKey 27 ['['.toNat, '8'.toNat, '~'.toNat] = END_KEY ∧
    editorReadKey 27 ['['.toNat, '5'.toNat, '~'.toNat] = PAGE_UP ∧
    editorReadKey 27 ['['.toNat, '6'.toNat, '~'.toNat] = PAGE_DOWN ∧
    editorReadKey 27 [] = 27 ∧
    (∀ b, editorReadKey 27 [b] = 27) ∧
    (∀ rest, editorReadKey 27 rest ∈
      ([27, ARROW_UP, ARROW_DOWN, ARROW_RIGHT, ARROW_LEFT,
        HOME_KEY, END_KEY, DEL_KEY, PAGE_UP, PAGE_DOWN] : List Nat)) ∧
    (∀ rest, rest.take 2 ∉
      ([['['.toNat, 'A'.toNat], ['['.toNat, 'B'.toNat], ['['.toNat, 'C'.toNat],
        ['['.toNat, 'D'.toNat], ['['.toNat, 'H'.toNat], ['['.toNat, 'F'.toNat],
        ['O'.toNat, 'H'.toNat], ['O'.toNat, 'F'.toNat]] : List (List Nat)) →
      rest.take 3 ∉
      ([['['.toNat, '1'.toNat, '~'.toNat], ['['.toNat, '3'.toNat, '~'.toNat],
        ['['.toNat, '4'.toNat, '~'.toNat], ['['.toNat, '5'.toNat, '~'.toNat],
        ['['.toNat, '6'.toNat, '~'.toNat], ['['.toNat, '7'.toNat, '~'.toNat],
        ['['.toNat, '8'.toNat, '~'.toNat]] : List (List Nat)) →
      editorReadKey 27 rest = 27) ∧
    (∀ rest, editorReadKey 127 rest = BACKSPACE) ∧
    BACKSPACE ≠ DEL_KEY ∧
    (∀ rest, editorReadKey 27 rest = DEL_KEY ↔
      rest.take 3 = ['['.toNat, '3'.toNat, '~'.toNat]) := by
  refine ⟨by decide, by decide, by decide, by decide, by decide, by decide, by decide,
    by decide, by decide, by decide, by decide, by decide, ?_, ?_, ?_, ?_, by decide, ?_⟩
  · intro b
    exact rfl
  · intro rest
    match rest with
    | [] => decide
    | [b] =>
      have h : editorReadKey 27 [b] = 27 := rfl
      rw [h]; decide
    | s0 :: s1 :: [] =>
      rw [editorReadKey_esc_two]
      split_ifs <;> decide
    | s0 :: s1 :: s2 :: r =>
      rw [editorReadKey_esc_more]
      split_ifs <;> decide
  · intro rest h2 h3
    match rest with
    | [] => rfl
    | [b] => rfl
    | s0 :: s1 :: [] =>
      rw [editorReadKey_esc_two]
      simp only [List.take_succ_cons, List.take_zero, List.mem_cons, List.mem_singleton,
        List.not_mem_nil, or_false] at h2
      push_neg at h2
      split_ifs <;> simp_all
    | s0 :: s1 :: s2 :: r =>
      rw [editorReadKey_esc_more]
      simp only [List.take_succ_cons, List.take_zero, List.mem_cons, List.mem_singleton,
        List.not_mem_nil, or_false] at h2 h3
      push_neg at h2 h3
      split_ifs <;> simp_all
  · intro rest
    exact rfl
  · intro rest
    match rest with
    | [] => simp [editorReadKey, DEL_KEY]
    | [b] =>
      have h : editorReadKey 27 [b] = 27 := rfl
      rw [h]; simp [DEL_KEY]
    | s0 :: s1 :: [] =>
      rw [editorReadKey_esc_two]
      split_ifs <;> simp_all [DEL_KEY, HOME_KEY, END_KEY, PAGE_UP, PAGE_DOWN,
        ARROW_UP, ARROW_DOWN, ARROW_LEFT, ARROW_RIGHT]
    | s0 :: s1 :: s2 :: r =>
      rw [editorReadKey_esc_more]
      split_ifs <;>
        (try simp_all [DEL_KEY, HOME_KEY, END_KEY, PAGE_UP, PAGE_DOWN,
          ARROW_UP, ARROW_DOWN, ARROW_LEFT, ARROW_RIGHT]) <;>
        (try decide) <;>
        omega

/-! ### Lemmas for the load/save round trip -/

theorem stripNlCr_append_newline (l : List Char) :
    stripNlCr (l ++ ['\n']) = stripNlCr l := by
  simp [stripNlCr, List.dropWhile]

theorem getLines_cons (c : Char) (cs : List Char) :
    getLines (c :: cs) =
      if c = '\n' then ['\n'] :: getLines cs
      else
        match getLines cs with
        | [] => [[c]]
        | l :: ls => (c :: l) :: ls := rfl

theorem getLines_line_append (l rest : List Char) (hl : ∀ c ∈ l, c ≠ '\n') :
    getLines (l ++ '\n' :: rest) = (l ++ ['\n']) :: getLines rest := by
  induction l with
  | nil => simp [getLines]
  | cons c cs ih =>
    have hc : c ≠ '\n' := hl c (by simp)
    have ihh := ih (fun x hx => hl x (by simp [hx]))
    rw [List.cons_append, getLines_cons, if_neg hc, ihh]
    simp

theorem getLines_no_newline (l : List Char) (hne : l ≠ []) (hl : ∀ c ∈ l, c ≠ '\n') :
    getLines l = [l] := by
  induction l with
  | nil => simp at hne
  | cons c cs ih =>
    have hc : c ≠ '\n' := hl c (by simp)
    cases cs with
    | nil => simp [getLines, hc]
    | cons d ds =>
      have ihh := ih (by simp) (fun x hx => hl x (by simp [hx]))
      rw [getLines_cons, if_neg hc, ihh]

theorem getLines_joinLines (L : List (List Char))
    (hL : ∀ l ∈ L, ∀ c ∈ l, c ≠ '\n') :
    getLines (joinLines L) = L.map (fun l => l ++ ['\n']) := by
  induction L with
  | nil => simp [joinLines, getLines]
  | cons l L ih =>
    have h1 : ∀ c ∈ l, c ≠ '\n' := hL l (by simp)
    have ihh := ih (fun x hx => hL x (by simp [hx]))
    have hshape : joinLines (l :: L) = l ++ '\n' :: joinLines L := by
      simp [joinLines]
    rw [hshape, getLines_line_append l _ h1, ihh]
    simp

theorem getLines_joinLines_append (L : List (List Char)) (tail : List Char)
    (hL : ∀ l ∈ L, ∀ c ∈ l, c ≠ '\n') (hne : tail ≠ [])
    (htail : ∀ c ∈ tail, c ≠ '\n') :
    getLines (joinLines L ++ tail) = L.map (fun l => l ++ ['\n']) ++ [tail] := by
  induction L with
  | nil =>
    simp only [joinLines, List.map_nil, List.flatten_nil, List.nil_append]
    exact getLines_no_newline tail hne htail
  | cons l L ih =>
    have h1 : ∀ c ∈ l, c ≠ '\n' := hL l (by simp)
    have ihh := ih (fun x hx => hL x (by simp [hx]))
    have hshape : joinLines (l :: L) ++ tail = l ++ '\n' :: (joinLines L ++ tail) := by
      simp [joinLines]
    rw [hshape, getLines_line_append l _ h1, ihh]
    simp

theorem editorOpen_chars (text : List Char) :
    (editorOpen text).map Erow.chars = (getLines text).map stripNlCr := by
  simp [editorOpen, editorUpdateRow, List.map_map, Function.comp]

theorem editorRowsToString_eq_joinLines (rows : List Erow) :
    editorRowsToString rows = joinLines (rows.map Erow.chars) := by
  simp only [editorRowsToString, joinLines, List.map_map]
  rfl

theorem map_stripNlCr_of_clean (L : List (List Char))
    (hL : ∀ l ∈ L, (∀ c ∈ l, c ≠ '\n') ∧ stripNlCr l = l) :
    (L.map (fun l => l ++ ['\n'])).map stripNlCr = L := by
  rw [List.map_map]
  have h : ∀ l ∈ L, (stripNlCr ∘ fun l => l ++ ['\n']) l = id l := by
    intro l hl
    simp only [Function.comp_apply, id_eq, stripNlCr_append_newline]
    exact (hL l hl).2
  rw [List.map_congr_left h, List.map_id]

/-- C1 counterexample: the round trip is NOT within trailing-newline
normalization on every text: loading and then saving the text "a\r\n"
yields "a\n", which differs from the original in the interior carriage
return — the result is neither the original text, nor the original with a
final newline appended, nor the original with its final newline removed,
nor does appending a newline to the result recover the original. -/
theorem load_save_cr_counterexample :
    editorRowsToString (editorOpen ['a', '\r', '\n']) = ['a', '\n'] ∧
    editorRowsToString (editorOpen ['a', '\r', '\n']) ≠ ['a', '\r', '\n'] ∧
    editorRowsToString (editorOpen ['a', '\r', '\n']) ≠ ['a', '\r', '\n'] ++ ['\n'] ∧
    editorRowsToString (editorOpen ['a', '\r', '\n']) ≠ ['a', '\r'] ∧
    editorRowsToString (editorOpen ['a', '\r', '\n']) ++ ['\n'] ≠ ['a', '\r', '\n'] := by
  decide

/-- C1 (amended): round trip of load and save.  `editorOpen` creates one
row per `getline` result with its entire trailing newline/carriage-return
run stripped (zero rows for empty input), and `editorRowsToString` emits
every row's raw characters followed by one newline, in row order.  The
reproduction up to trailing-newline normalization therefore holds for the
texts none of whose lines end in a carriage return (lines already fixed by
the stripping, `stripNlCr l = l`): such a text round-trips exactly when it
ends in a newline and gains exactly the single missing final newline when
it does not, including the zero-line (empty) text; texts with
carriage-return-terminated lines additionally lose those trailing carriage
returns. -/
theorem load_save_round_trip :
    editorRowsToString (editorOpen []) = [] ∧
    (∀ text, (editorOpen text).length = (getLines text).length ∧
      (editorOpen text).map Erow.chars = (getLines text).map stripNlCr) ∧
    (∀ L : List (List Char),
      (∀ l ∈ L, (∀ c ∈ l, c ≠ '\n') ∧ stripNlCr l = l) →
      (editorOpen (joinLines L)).map Erow.chars = L ∧
      editorRowsToString (editorOpen (joinLines L)) = joinLines L) ∧
    (∀ (L : List (List Char)) (tail : List Char),
      (∀ l ∈ L, (∀ c ∈ l, c ≠ '\n') ∧ stripNlCr l = l) →
      tail ≠ [] → (∀ c ∈ tail, c ≠ '\n') → stripNlCr tail = tail →
      editorRowsToString (editorOpen (joinLines L ++ tail)) =
        joinLines L ++ tail ++ ['\n']) := by
  refine ⟨by decide, ?_, ?_, ?_⟩
  · intro text
    constructor
    · simp [editorOpen]
    · exact editorOpen_chars text
  · intro L hL
    have hchars : (editorOpen (joinLines L)).map Erow.chars = L := by
      rw [editorOpen_chars, getLines_joinLines L (fun l hl => (hL l hl).1)]
      exact map_stripNlCr_of_clean L hL
    refine ⟨hchars, ?_⟩
    rw [editorRowsToString_eq_joinLines, hchars]
  · intro L tail hL hne htail hstrip
    have hchars : (editorOpen (joinLines L ++ tail)).map Erow.chars = L ++ [tail] := by
      rw [editorOpen_chars,
        getLines_joinLines_append L tail (fun l hl => (hL l hl).1) hne htail,
        List.map_append, map_stripNlCr_of_clean L hL]
      simp [hstrip]
    rw [editorRowsToString_eq_joinLines, hchars]
    simp [joinLines]

/-- A state holding exactly one empty row with the cursor at its origin,
for the C8 insertion scenarios. -/
def emptyRowState : EditorState :=
  { cx := 0, cy := 0, rx := 0, rowoff := 0, coloff := 0,
    screenrows := 24, screencols := 80, rows := [editorUpdateRow []] }

/-- C8: character insertion semantics: `editorRowInsertChar` inserts the
character into the raw characters at the given column clamped to the raw
length, shifting the rest right by one, and recomputes the rendered form
from the new raw characters; `editorInsertChar` at `cy` equal to the row
count first appends a new empty row (making the inserted character its sole
raw content) and advances the cursor column; concretely, inserting `'a'` at
(row 0, col 0) of a buffer with one empty row yields raw content "a" and
cursor column 1, and inserting a tab there yields a single-tab raw row of
length 1 rendered as 8 spaces. -/
theorem editorInsertChar_semantics :
    (∀ row i c, (editorRowInsertChar row i c).chars =
        row.chars.take (min i row.chars.length) ++
          c :: row.chars.drop (min i row.chars.length) ∧
      (editorRowInsertChar row i c).render =
        renderChars (editorRowInsertChar row i c).chars 0) ∧
    (∀ E c, E.cy = E.rows.length →
      (editorInsertChar E c).rows.length = E.rows.length + 1 ∧
      ((editorInsertChar E c).rows.getD E.cy nullRow).chars = [c] ∧
      (editorInsertChar E c).cx = E.cx + 1) ∧
    ((editorInsertChar emptyRowState 'a').rows.getD 0 nullRow).chars = ['a'] ∧
    (editorInsertChar emptyRowState 'a').cx = 1 ∧
    ((editorInsertChar emptyRowState '\t').rows.getD 0 nullRow).chars = ['\t'] ∧
    ((editorInsertChar emptyRowState '\t').rows.getD 0 nullRow).chars.length = 1 ∧
    ((editorInsertChar emptyRowState '\t').rows.getD 0 nullRow).render =
      List.replicate 8 ' ' := by
  refine ⟨?_, ?_, by decide, by decide, by decide, by decide, by decide⟩
  · intro row i c
    have hj : (if i > row.chars.length then row.chars.length else i) =
        min i row.chars.length := by
      split_ifs with h <;> omega
    constructor
    · show row.chars.take (if i > row.chars.length then row.chars.length else i) ++
        c :: row.chars.drop (if i > row.chars.length then row.chars.length else i) = _
      rw [hj]
    · rfl
  · intro E c h
    refine ⟨?_, ?_, rfl⟩
    · simp [editorInsertChar, editorAppendRow, if_pos h]
    · have hv : (E.rows ++ [editorUpdateRow []]).getD E.cy nullRow = editorUpdateRow [] := by
        rw [h, List.getD_append_right _ _ _ _ le_rfl]
        simp
      have hlt : E.cy < (E.rows ++ [editorUpdateRow []]).length := by
        simp only [List.length_append, List.length_cons, List.length_nil, h]
        omega
      simp only [editorInsertChar, editorAppendRow, if_pos h]
      rw [List.getD_eq_getElem?_getD, List.getElem?_set_self hlt, Option.getD_some, hv]
      simp [editorRowInsertChar, editorUpdateRow]

/-- A two-row state for the C10 frame-property witness. -/
def frameDemoState : EditorState :=
  { cx := 0, cy := 0, rx := 0, rowoff := 0, coloff := 0,
    screenrows := 24, screencols := 80,
    rows := [editorUpdateRow ['x'], editorUpdateRow ['y']] }

/-- C10: insertion frame property: inserting a character at the cursor
leaves every row other than the cursor's row unchanged (so row order and
content elsewhere are preserved), and the row count grows by exactly one
when the cursor sat on the virtual line past the end and is unchanged
otherwise. -/
theorem editorInsertChar_frame (E : EditorState) (c : Char)
    (hcy : E.cy ≤ E.rows.length) :
    ((editorInsertChar E c).rows.length =
      if E.cy = E.rows.length then E.rows.length + 1 else E.rows.length) ∧
    (∀ i, i ≠ E.cy →
      (editorInsertChar E c).rows.getD i nullRow = E.rows.getD i nullRow) := by
  constructor
  · by_cases h : E.cy = E.rows.length <;>
      simp [editorInsertChar, editorAppendRow, h]
  · intro i hi
    by_cases h : E.cy = E.rows.length
    · have hne : i ≠ E.rows.length := h ▸ hi
      simp only [editorInsertChar, editorAppendRow, if_pos h]
      rw [List.getD_eq_getElem?_getD, List.getElem?_set_ne (Ne.symm hi)]
      rcases lt_or_ge i E.rows.length with hlt | hge
      · rw [List.getElem?_append_left hlt, ← List.getD_eq_getElem?_getD]
      · rw [List.getElem?_eq_none
          (show (E.rows ++ [editorUpdateRow []]).length ≤ i by
            simp only [List.length_append, List.length_cons, List.length_nil]
            omega),
          List.getD_eq_default _ _ hge]
        rfl
    · simp only [editorInsertChar, editorAppendRow, if_neg h]
      rw [List.getD_eq_getElem?_getD, List.getElem?_set_ne (Ne.symm hi),
        ← List.getD_eq_getElem?_getD]

/-- Witness for C10 at `frameDemoState`: inserting into row 0 leaves row 1
untouched. -/
theorem editorInsertChar_frame_witness :
    (editorInsertChar frameDemoState 'z').rows.getD 1 nullRow =
      frameDemoState.rows.getD 1 nullRow :=
  (editorInsertChar_frame frameDemoState 'z' (by decide)).2 1 (by decide)

end Kilo
